import Mathlib

/-!
Verification of quicklens/lens.py: first-order flat-sky lensed B-modes.

The source module under verification is `quicklens/lens.py`.  Its collaborator
modules `maps` (grid/Fourier containers `rmap`/`rfft`/`cfft`) and `qest`
(quadratic-estimator library) are not part of the provided sources; following
the specification they are treated as external collaborators and are modelled
from the spec where the claims need them.  Every such definition carries a
doc comment starting with `Modelled from the spec:`.

Machine floating-point arrays are embedded as functions `Nat -> Nat -> C` over
the exact complex numbers; `np.fft.fft2` / `np.fft.ifft2` are embedded as the
discrete Fourier transform sums they compute.
-/

/-- `np.fft.fft2` on an `(ny, nx)`-shaped array: the unnormalized 2D discrete
Fourier transform, `F[k1][k2] = Σ_{j1<ny} Σ_{j2<nx} a[j1][j2]·e^{-2πi(j1·k1/ny + j2·k2/nx)}`. -/
noncomputable def fft2 (ny nx : ℕ) (a : ℕ → ℕ → ℂ) : ℕ → ℕ → ℂ :=
  fun k1 k2 => ∑ j1 ∈ Finset.range ny, ∑ j2 ∈ Finset.range nx,
    a j1 j2 * Complex.exp (-(2 * (Real.pi : ℂ) * Complex.I) *
      ((j1 * k1 : ℕ) / (ny : ℂ) + (j2 * k2 : ℕ) / (nx : ℂ)))

/-- `np.fft.ifft2` on an `(ny, nx)`-shaped array: the inverse 2D discrete
Fourier transform, normalized by `1/(ny·nx)`. -/
noncomputable def ifft2 (ny nx : ℕ) (a : ℕ → ℕ → ℂ) : ℕ → ℕ → ℂ :=
  fun j1 j2 => (1 / ((ny : ℂ) * (nx : ℂ))) *
    ∑ k1 ∈ Finset.range ny, ∑ k2 ∈ Finset.range nx,
      a k1 k2 * Complex.exp ((2 * (Real.pi : ℂ) * Complex.I) *
        ((k1 * j1 : ℕ) / (ny : ℂ) + (k2 * j2 : ℕ) / (nx : ℂ)))

/-- the integer numerator of `np.fft.fftfreq(n)[k]`: `k` for the non-negative
frequencies (`2k < n`), `k - n` for the negative ones. -/
def fftfreq_num (n k : ℕ) : ℤ := if 2 * k < n then (k : ℤ) else (k : ℤ) - (n : ℤ)

/-- `np.arctan2(y, x)`: the argument of the complex number `x + i·y`. -/
noncomputable def arctan2 (y x : ℝ) : ℝ := Complex.arg ((x : ℂ) + (y : ℂ) * Complex.I)

namespace maps

/-- the full-complex Fourier container `maps.cfft`: grid metadata
`nx, ny` (pixel counts), `dx, dy` (pixel sizes in radians) and the complex
Fourier-coefficient array `fft` of shape `(ny, nx)`. -/
@[ext] structure cfft where
  nx : ℕ
  ny : ℕ
  dx : ℝ
  dy : ℝ
  fft : ℕ → ℕ → ℂ

/-- the real-space map container `maps.rmap`: grid metadata and a real-valued
pixel array `map` of shape `(ny, nx)`. -/
structure rmap where
  nx : ℕ
  ny : ℕ
  dx : ℝ
  dy : ℝ
  map : ℕ → ℕ → ℝ

/-- the Hermitian-symmetric (half-plane) Fourier container `maps.rfft`. -/
structure rfft where
  nx : ℕ
  ny : ℕ
  dx : ℝ
  dy : ℝ
  fft : ℕ → ℕ → ℂ

/-- Modelled from the spec: the grid-compatibility predicate of the missing
`maps` module — two Fourier containers are compatible exactly when the pixel
counts and pixel sizes all match (`e.compatible(pfft)` in the source). -/
def compatible (a b : cfft) : Prop :=
  a.nx = b.nx ∧ a.ny = b.ny ∧ a.dx = b.dx ∧ a.dy = b.dy

/-- Modelled from the spec: construction of an empty full-complex field from
`(nx, dx[, ny, dy])` in the missing `maps` module; `ny`, `dy` default to
`nx`, `dx` and the Fourier array is initialized to zero. -/
def cfft_new (nx : ℕ) (dx : ℝ) (ny : Option ℕ) (dy : Option ℝ) : cfft :=
  ⟨nx, ny.getD nx, dx, dy.getD dx, fun _ _ => 0⟩

/-- Modelled from the spec: the per-mode Fourier coordinate `lx` of
`get_lxly()` in the missing `maps` module, varying along columns, following
the standard DFT convention `2π·fftfreq(nx, dx)`. -/
noncomputable def lx_of (c : cfft) (j2 : ℕ) : ℝ :=
  2 * Real.pi * (fftfreq_num c.nx j2 : ℝ) / ((c.nx : ℝ) * c.dx)

/-- Modelled from the spec: the per-mode Fourier coordinate `ly` of
`get_lxly()`, varying along rows. -/
noncomputable def ly_of (c : cfft) (j1 : ℕ) : ℝ :=
  2 * Real.pi * (fftfreq_num c.ny j1 : ℝ) / ((c.ny : ℝ) * c.dy)

/-- the mode azimuthal angle of the source, `psi = np.arctan2(lx, -ly)`. -/
noncomputable def psi_of (c : cfft) (j1 j2 : ℕ) : ℝ :=
  arctan2 (lx_of c j2) (-(ly_of c j1))

/-- Modelled from the spec: `rmap.get_rfft` of the missing `maps` module — the
Fourier transform of the real-space map exploiting Hermitian symmetry
(half-plane storage), carried with the library normalization
`sqrt(dx·dy/(nx·ny))`. -/
noncomputable def rmap.get_rfft (m : rmap) : rfft :=
  ⟨m.nx, m.ny, m.dx, m.dy, fun j1 j2 =>
    (Real.sqrt (m.dx * m.dy / ((m.nx : ℝ) * (m.ny : ℝ))) : ℂ) *
      fft2 m.ny m.nx (fun a b => (m.map a b : ℂ)) j1 j2⟩

/-- Modelled from the spec: `rfft.get_cfft` of the missing `maps` module —
expansion of the Hermitian-symmetric half-plane storage to the full complex
plane by conjugate symmetry. -/
noncomputable def rfft.get_cfft (r : rfft) : cfft :=
  ⟨r.nx, r.ny, r.dx, r.dy, fun j1 j2 =>
    if 2 * j2 ≤ r.nx then r.fft j1 j2
    else star (r.fft ((r.ny - j1) % r.ny) ((r.nx - j2) % r.nx))⟩

/-- the field with every Fourier coefficient scaled by the real scalar `c`
(for stating linearity in the potential). -/
noncomputable def cfft.scaleF (f : cfft) (c : ℝ) : cfft :=
  ⟨f.nx, f.ny, f.dx, f.dy, fun a b => (c : ℂ) * f.fft a b⟩

end maps

/-- the possible runtime representations of an input to
`calc_lensed_b_first_order`: a real-space map, a Hermitian-Fourier object, a
full-complex Fourier object, or any other object that duck-types as a
full-complex Fourier field (the raw fall-through of the source dispatch). -/
inductive inputrep where
  | rmap (m : maps.rmap)
  | rfft (r : maps.rfft)
  | cfft (c : maps.cfft)
  | raw (c : maps.cfft)

/-- the dispatch the source performs on `e`:
`if maps.is_rmap(e): e = e.get_rfft().get_cfft()` followed by
`if maps.is_rfft(e): e = e.get_cfft()`; the two sequential `if`s are
equivalent to this match because the first conversion already yields a
full-complex object.  Any other object is used directly (the source has no
else branch for `e`). -/
noncomputable def normE : inputrep → maps.cfft
  | .rmap m => m.get_rfft.get_cfft
  | .rfft r => r.get_cfft
  | .cfft c => c
  | .raw c => c

/-- the dispatch the source performs on `phi`:
`if maps.is_rmap(phi): ... elif maps.is_rfft(phi): ... else: pfft = phi`. -/
noncomputable def normPhi : inputrep → maps.cfft
  | .rmap m => m.get_rfft.get_cfft
  | .rfft r => r.get_cfft
  | .cfft c => c
  | .raw c => c

/-- the source subexpression `np.fft.ifft2(lx*e.fft*np.exp(s*1j*psi))`; the
source instantiates the spin sign `s` at `+2` and `-2`.  `lx`, `psi` are
computed on `ret`'s grid, which the source builds with `e`'s metadata. -/
noncomputable def igradx (s : ℝ) (e : maps.cfft) (i1 i2 : ℕ) : ℂ :=
  ifft2 e.ny e.nx (fun a b =>
    (maps.lx_of e b : ℂ) * e.fft a b *
      Complex.exp ((s : ℂ) * Complex.I * (maps.psi_of e a b : ℂ))) i1 i2

/-- the source subexpression `np.fft.ifft2(ly*e.fft*np.exp(s*1j*psi))`. -/
noncomputable def igrady (s : ℝ) (e : maps.cfft) (i1 i2 : ℕ) : ℂ :=
  ifft2 e.ny e.nx (fun a b =>
    (maps.ly_of e a : ℂ) * e.fft a b *
      Complex.exp ((s : ℂ) * Complex.I * (maps.psi_of e a b : ℂ))) i1 i2

/-- the source subexpression `np.fft.ifft2(lx*pfft.fft)`. -/
noncomputable def igradpx (e p : maps.cfft) (i1 i2 : ℕ) : ℂ :=
  ifft2 e.ny e.nx (fun a b => (maps.lx_of e b : ℂ) * p.fft a b) i1 i2

/-- the source subexpression `np.fft.ifft2(ly*pfft.fft)`. -/
noncomputable def igradpy (e p : maps.cfft) (i1 i2 : ℕ) : ℂ :=
  ifft2 e.ny e.nx (fun a b => (maps.ly_of e a : ℂ) * p.fft a b) i1 i2

/-- the first summand of the source formula:
`np.fft.fft2( +ifft2(lx*e.fft*exp(+2j*psi))*ifft2(lx*pfft.fft)
             +ifft2(ly*e.fft*exp(+2j*psi))*ifft2(ly*pfft.fft) ) * np.exp(-2j*psi)`. -/
noncomputable def bplus (e p : maps.cfft) (j1 j2 : ℕ) : ℂ :=
  fft2 e.ny e.nx (fun i1 i2 =>
      igradx 2 e i1 i2 * igradpx e p i1 i2 + igrady 2 e i1 i2 * igradpy e p i1 i2) j1 j2 *
    Complex.exp (-(2 * Complex.I * (maps.psi_of e j1 j2 : ℂ)))

/-- the second summand of the source formula:
`np.fft.fft2( -ifft2(lx*e.fft*exp(-2j*psi))*ifft2(lx*pfft.fft)
             -ifft2(ly*e.fft*exp(-2j*psi))*ifft2(ly*pfft.fft) ) * np.exp(+2j*psi)`. -/
noncomputable def bminus (e p : maps.cfft) (j1 j2 : ℕ) : ℂ :=
  fft2 e.ny e.nx (fun i1 i2 =>
      (-(igradx (-2) e i1 i2)) * igradpx e p i1 i2 +
        (-(igrady (-2) e i1 i2)) * igradpy e p i1 i2) j1 j2 *
    Complex.exp (2 * Complex.I * (maps.psi_of e j1 j2 : ℂ))

/-- the value the source assigns to `ret.fft`: `-0.5j * (bplus + bminus)`. -/
noncomputable def raw_b_fft (e p : maps.cfft) (j1 j2 : ℕ) : ℂ :=
  (-(1 / 2 : ℂ) * Complex.I) * (bplus e p j1 j2 + bminus e p j1 j2)

/-- the source rescale factor `np.sqrt(ret.nx*ret.ny) / np.sqrt(ret.dx*ret.dy)`. -/
noncomputable def tfac (c : maps.cfft) : ℝ :=
  Real.sqrt ((c.nx : ℝ) * (c.ny : ℝ)) / Real.sqrt (c.dx * c.dy)

/-- the entities visible to the body of `calc_lensed_b_first_order`. -/
inductive entity where
  | ent_e
  | ent_phi
  | ent_ret

/-- a mutation event of the body: an assignment of an `fft` array
(`ret.fft = ...`) or an in-place scalar rescale (`ret *= ...`). -/
inductive mutEvent where
  | assignFFT (t : entity)
  | scaleInPlace (t : entity)

/-- whether a mutation event is an assignment of the Fourier array. -/
def mutEvent.isAssign : mutEvent → Bool
  | .assignFFT _ => true
  | .scaleInPlace _ => false

/-- the state of the body of `calc_lensed_b_first_order` after the assertion:
the two normalized inputs, the output object `ret`, and the log of every
mutation performed so far. -/
structure bodyState where
  e_obj : maps.cfft
  phi_obj : maps.cfft
  ret_obj : maps.cfft
  log : List mutEvent

/-- `ret = maps.cfft(nx=e.nx, dx=e.dx, ny=e.ny, dy=e.dy)`: allocation of the
output field on `e`'s grid; no mutation of any existing entity. -/
noncomputable def step_alloc (e p : maps.cfft) : bodyState :=
  ⟨e, p, maps.cfft_new e.nx e.dx (some e.ny) (some e.dy), []⟩

/-- `ret.fft = -0.5j * ( ... )`: the single assignment of the output Fourier
array.  `lx`, `ly`, `psi` come from `ret.get_lxly()`; `ret`'s grid equals
`e`'s grid by construction. -/
noncomputable def step_assign (s : bodyState) : bodyState :=
  ⟨s.e_obj, s.phi_obj,
    ⟨s.ret_obj.nx, s.ret_obj.ny, s.ret_obj.dx, s.ret_obj.dy,
      fun j1 j2 => raw_b_fft s.e_obj s.phi_obj j1 j2⟩,
    s.log ++ [mutEvent.assignFFT entity.ent_ret]⟩

/-- `ret *= np.sqrt(ret.nx*ret.ny)/np.sqrt(ret.dx*ret.dy)`: in-place scalar
multiplication of `ret` (the spec's container contract supplies in-place
scalar multiplication). -/
noncomputable def step_scale (s : bodyState) : bodyState :=
  ⟨s.e_obj, s.phi_obj,
    ⟨s.ret_obj.nx, s.ret_obj.ny, s.ret_obj.dx, s.ret_obj.dy,
      fun j1 j2 => (tfac s.ret_obj : ℂ) * s.ret_obj.fft j1 j2⟩,
    s.log ++ [mutEvent.scaleInPlace entity.ent_ret]⟩

/-- the straight-line body of `calc_lensed_b_first_order` after the
assertion: allocate, assign the Fourier array, rescale in place. -/
noncomputable def run_body (e p : maps.cfft) : bodyState :=
  step_scale (step_assign (step_alloc e p))

open Classical in
/-- `calc_lensed_b_first_order(e, phi)` of the source: normalize both inputs
to full-complex form, assert grid compatibility (modelled as `none` on
assertion failure), then run the straight-line body and return `ret`. -/
noncomputable def calc_lensed_b_first_order (e phi : inputrep) : Option maps.cfft :=
  if maps.compatible (normE e) (normPhi phi) then
    some (run_body (normE e) (normPhi phi)).ret_obj
  else none

/-- Claim C1 spec-side definition (step 4 of the spec's algorithm): the
"+2 spin" contribution — forward transform of the summed pointwise products
of the `e^{+2iψ}`-rotated E gradients with the potential gradients, with the
phase factor `e^{-2iψ}` applied to the result. -/
noncomputable def spec_b_plus (e p : maps.cfft) (j1 j2 : ℕ) : ℂ :=
  fft2 e.ny e.nx (fun i1 i2 =>
      igradx 2 e i1 i2 * igradpx e p i1 i2 + igrady 2 e i1 i2 * igradpy e p i1 i2) j1 j2 *
    Complex.exp (-(2 * Complex.I * (maps.psi_of e j1 j2 : ℂ)))

/-- Claim C1 spec-side definition (step 5 of the spec's algorithm): the
"-2 spin" contribution — conjugate spin rotation `e^{-2iψ}` for the E-field
gradients, phase factor `e^{+2iψ}` applied to the result, with an overall
sign flip relative to the +2 branch. -/
noncomputable def spec_b_minus (e p : maps.cfft) (j1 j2 : ℕ) : ℂ :=
  -(fft2 e.ny e.nx (fun i1 i2 =>
        igradx (-2) e i1 i2 * igradpx e p i1 i2 +
          igrady (-2) e i1 i2 * igradpy e p i1 i2) j1 j2 *
      Complex.exp (2 * Complex.I * (maps.psi_of e j1 j2 : ℂ)))

/-- Claim C1 spec-side definition (steps 6 and 7 of the spec's algorithm):
the output field equals `-i/2` times the sum of the +2 and -2 contributions,
multiplied by the normalization rescale `sqrt(nx·ny)/sqrt(dx·dy)`. -/
noncomputable def spec_lensed_b_fft (e p : maps.cfft) (j1 j2 : ℕ) : ℂ :=
  (Real.sqrt ((e.nx : ℝ) * (e.ny : ℝ)) / Real.sqrt (e.dx * e.dy) : ℂ) *
    ((-(1 / 2 : ℂ) * Complex.I) * (spec_b_plus e p j1 j2 + spec_b_minus e p j1 j2))

/-- the duck-typed `cl_unl` argument of the spectrum routines: an object
exposing `lmax`, `clee`, `clpp`. -/
structure clbundle where
  lmax : ℕ
  clee : List ℝ
  clpp : List ℝ

namespace qest

/-- Modelled from the spec: a weighted quadratic estimator of the missing
`qest` module, parameterized by two 1D weight-function arrays and keyed by
its kernel kind. -/
structure estimator where
  kind : String
  w1 : List ℝ
  w2 : List ℝ

/-- Modelled from the spec: `qest.lens.blen_EP`, the estimator constructor
keyed "EP" (gradient-lensing response). -/
def lens.blen_EP (w1 w2 : List ℝ) : estimator := ⟨"EP", w1, w2⟩

/-- Modelled from the spec: `qest.qest_blm_EX`, the estimator constructor
keyed "EX" (E/curl cross, curl-lensing response). -/
def qest_blm_EX (w1 w2 : List ℝ) : estimator := ⟨"EX", w1, w2⟩

/-- Modelled from the spec: the observable effect of one call to the opaque
response-filling routine `fill_resp` of the missing `qest` module — the
receiver estimator, the estimator argument, the destination grid it writes
into, the two per-leg weight arrays, and the optional padding parameter. -/
structure respCall where
  estSelf : estimator
  estOther : estimator
  dest : maps.cfft
  wA : List ℝ
  wB : List ℝ
  npad : Option ℕ

/-- Modelled from the spec: `self.fill_resp(other, dest, wA, wB[, npad])` —
the routine's numerics are opaque to this module, so its effect is recorded
as the call made (destination written in place). -/
def fill_resp (self other : estimator) (dest : maps.cfft) (wA wB : List ℝ)
    (npad : Option ℕ) : respCall :=
  ⟨self, other, dest, wA, wB, npad⟩

/-- Modelled from the spec: the binned return spectrum (`spec.bcl`): the
filled response it bins, the bin boundaries, and the optional weight
function. -/
structure bcl where
  resp : respCall
  lbins : List ℝ
  w : Option (ℝ → ℝ)

/-- Modelled from the spec: `ret.get_ml(lbins, w=w)` — the binning routine of
the destination object, mapping the filled 2D field to a binned spectrum. -/
def get_ml (r : respCall) (lbins : List ℝ) (w : Option (ℝ → ℝ)) : bcl :=
  ⟨r, lbins, w⟩

end qest

/-- `np.ones(n)`. -/
def np_ones (n : ℕ) : List ℝ := List.replicate n 1

/-- `calc_lensed_clbb_flat_sky_first_order(lbins, nx, dx, cl_unl, w=None)` of
the source: build the destination grid, build the "EP" estimator from the
square roots of `clee` and `clpp`, fill its auto-response with unit weights
on the first leg, `2.*np.ones(lmax+1)` on the second leg and `npad=1`, then
bin into `lbins` with `w`. -/
noncomputable def calc_lensed_clbb_flat_sky_first_order (lbins : List ℝ) (nx : ℕ)
    (dx : ℝ) (cl_unl : clbundle) (w : Option (ℝ → ℝ)) : qest.bcl :=
  let ret := maps.cfft_new nx dx none none
  let qeep := qest.lens.blen_EP (cl_unl.clee.map Real.sqrt) (cl_unl.clpp.map Real.sqrt)
  qest.get_ml
    (qest.fill_resp qeep qeep ret (np_ones (cl_unl.lmax + 1))
      ((np_ones (cl_unl.lmax + 1)).map (fun x => 2 * x)) (some 1))
    lbins w

/-- `calc_lensed_clbb_flat_sky_first_order_curl(lbins, nx, dx, cl_unl, w=None)`
of the source: identical to the gradient version except that the estimator is
`qest.qest_blm_EX` and no padding parameter is passed to `fill_resp`. -/
noncomputable def calc_lensed_clbb_flat_sky_first_order_curl (lbins : List ℝ) (nx : ℕ)
    (dx : ℝ) (cl_unl : clbundle) (w : Option (ℝ → ℝ)) : qest.bcl :=
  let ret := maps.cfft_new nx dx none none
  let qeep := qest.qest_blm_EX (cl_unl.clee.map Real.sqrt) (cl_unl.clpp.map Real.sqrt)
  qest.get_ml
    (qest.fill_resp qeep qeep ret (np_ones (cl_unl.lmax + 1))
      ((np_ones (cl_unl.lmax + 1)).map (fun x => 2 * x)) none)
    lbins w

/-! Helper lemmas about the embedded transforms. -/

theorem fft2_congr {ny nx : ℕ} {a b : ℕ → ℕ → ℂ} (h : ∀ i j, a i j = b i j)
    (k1 k2 : ℕ) : fft2 ny nx a k1 k2 = fft2 ny nx b k1 k2 := by
  simp only [fft2]
  exact Finset.sum_congr rfl fun i _ => Finset.sum_congr rfl fun j _ => by rw [h i j]

theorem ifft2_congr {ny nx : ℕ} {a b : ℕ → ℕ → ℂ} (h : ∀ i j, a i j = b i j)
    (k1 k2 : ℕ) : ifft2 ny nx a k1 k2 = ifft2 ny nx b k1 k2 := by
  simp only [ifft2]
  congr 1
  exact Finset.sum_congr rfl fun i _ => Finset.sum_congr rfl fun j _ => by rw [h i j]

theorem fft2_zero (ny nx : ℕ) (k1 k2 : ℕ) :
    fft2 ny nx (fun _ _ => 0) k1 k2 = 0 := by
  simp [fft2]

theorem ifft2_zero (ny nx : ℕ) (k1 k2 : ℕ) :
    ifft2 ny nx (fun _ _ => 0) k1 k2 = 0 := by
  simp [ifft2]

theorem fft2_negpair (ny nx : ℕ) (A B C D : ℕ → ℕ → ℂ) (k1 k2 : ℕ) :
    fft2 ny nx (fun i j => (-(A i j)) * B i j + (-(C i j)) * D i j) k1 k2
      = -(fft2 ny nx (fun i j => A i j * B i j + C i j * D i j) k1 k2) := by
  simp only [fft2, ← Finset.sum_neg_distrib]
  exact Finset.sum_congr rfl fun i _ => Finset.sum_congr rfl fun j _ => by ring

theorem igradpx_scale (e p : maps.cfft) (c : ℝ) (i1 i2 : ℕ) :
    igradpx e (p.scaleF c) i1 i2 = (c : ℂ) * igradpx e p i1 i2 := by
  unfold igradpx maps.cfft.scaleF
  simp only [ifft2, Finset.mul_sum]
  refine Finset.sum_congr rfl fun a _ => Finset.sum_congr rfl fun b _ => by ring

theorem igradpy_scale (e p : maps.cfft) (c : ℝ) (i1 i2 : ℕ) :
    igradpy e (p.scaleF c) i1 i2 = (c : ℂ) * igradpy e p i1 i2 := by
  unfold igradpy maps.cfft.scaleF
  simp only [ifft2, Finset.mul_sum]
  refine Finset.sum_congr rfl fun a _ => Finset.sum_congr rfl fun b _ => by ring

theorem bplus_scale (e p : maps.cfft) (c : ℝ) (j1 j2 : ℕ) :
    bplus e (p.scaleF c) j1 j2 = (c : ℂ) * bplus e p j1 j2 := by
  unfold bplus
  have h : fft2 e.ny e.nx (fun i1 i2 =>
        igradx 2 e i1 i2 * igradpx e (p.scaleF c) i1 i2 +
          igrady 2 e i1 i2 * igradpy e (p.scaleF c) i1 i2) j1 j2
      = (c : ℂ) * fft2 e.ny e.nx (fun i1 i2 =>
          igradx 2 e i1 i2 * igradpx e p i1 i2 +
            igrady 2 e i1 i2 * igradpy e p i1 i2) j1 j2 := by
    simp only [fft2, Finset.mul_sum]
    refine Finset.sum_congr rfl fun a _ => Finset.sum_congr rfl fun b _ => ?_
    rw [igradpx_scale, igradpy_scale]
    ring
  rw [h]
  ring

theorem bminus_scale (e p : maps.cfft) (c : ℝ) (j1 j2 : ℕ) :
    bminus e (p.scaleF c) j1 j2 = (c : ℂ) * bminus e p j1 j2 := by
  unfold bminus
  have h : fft2 e.ny e.nx (fun i1 i2 =>
        (-(igradx (-2) e i1 i2)) * igradpx e (p.scaleF c) i1 i2 +
          (-(igrady (-2) e i1 i2)) * igradpy e (p.scaleF c) i1 i2) j1 j2
      = (c : ℂ) * fft2 e.ny e.nx (fun i1 i2 =>
          (-(igradx (-2) e i1 i2)) * igradpx e p i1 i2 +
            (-(igrady (-2) e i1 i2)) * igradpy e p i1 i2) j1 j2 := by
    simp only [fft2, Finset.mul_sum]
    refine Finset.sum_congr rfl fun a _ => Finset.sum_congr rfl fun b _ => ?_
    rw [igradpx_scale, igradpy_scale]
    ring
  rw [h]
  ring

theorem raw_b_fft_scale (e p : maps.cfft) (c : ℝ) (j1 j2 : ℕ) :
    raw_b_fft e (p.scaleF c) j1 j2 = (c : ℂ) * raw_b_fft e p j1 j2 := by
  unfold raw_b_fft
  rw [bplus_scale, bminus_scale]
  ring

theorem igradpx_zero (e p : maps.cfft) (hz : ∀ a b, p.fft a b = 0) (i1 i2 : ℕ) :
    igradpx e p i1 i2 = 0 := by
  unfold igradpx
  simp only [ifft2, hz, mul_zero, zero_mul, Finset.sum_const_zero]

theorem igradpy_zero (e p : maps.cfft) (hz : ∀ a b, p.fft a b = 0) (i1 i2 : ℕ) :
    igradpy e p i1 i2 = 0 := by
  unfold igradpy
  simp only [ifft2, hz, mul_zero, zero_mul, Finset.sum_const_zero]

theorem igradx_zero (s : ℝ) (e : maps.cfft) (hz : ∀ a b, e.fft a b = 0) (i1 i2 : ℕ) :
    igradx s e i1 i2 = 0 := by
  unfold igradx
  simp only [ifft2, hz, mul_zero, zero_mul, Finset.sum_const_zero]

theorem igrady_zero (s : ℝ) (e : maps.cfft) (hz : ∀ a b, e.fft a b = 0) (i1 i2 : ℕ) :
    igrady s e i1 i2 = 0 := by
  unfold igrady
  simp only [ifft2, hz, mul_zero, zero_mul, Finset.sum_const_zero]

theorem raw_b_fft_zeroP (e p : maps.cfft) (hz : ∀ a b, p.fft a b = 0) (j1 j2 : ℕ) :
    raw_b_fft e p j1 j2 = 0 := by
  unfold raw_b_fft bplus bminus
  simp only [fft2, igradpx_zero e p hz, igradpy_zero e p hz, mul_zero, add_zero,
    zero_mul, Finset.sum_const_zero, zero_add]

theorem raw_b_fft_zeroE (e p : maps.cfft) (hz : ∀ a b, e.fft a b = 0) (j1 j2 : ℕ) :
    raw_b_fft e p j1 j2 = 0 := by
  unfold raw_b_fft bplus bminus
  simp only [fft2, igradx_zero 2 e hz, igradx_zero (-2) e hz, igrady_zero 2 e hz,
    igrady_zero (-2) e hz, neg_zero, zero_mul, add_zero, zero_add, mul_zero,
    Finset.sum_const_zero]

theorem bplus_eq_spec (e p : maps.cfft) (j1 j2 : ℕ) :
    bplus e p j1 j2 = spec_b_plus e p j1 j2 := rfl

theorem bminus_eq_spec (e p : maps.cfft) (j1 j2 : ℕ) :
    bminus e p j1 j2 = spec_b_minus e p j1 j2 := by
  unfold bminus spec_b_minus
  rw [← neg_mul]
  congr 1
  exact fft2_negpair e.ny e.nx (fun i j => igradx (-2) e i j)
    (fun i j => igradpx e p i j) (fun i j => igrady (-2) e i j)
    (fun i j => igradpy e p i j) j1 j2

/-- Claim C1: for every pair of grid-compatible full-complex-Fourier inputs
`e` and `phi`, `calc_lensed_b_first_order` returns a field on `e`'s grid whose
Fourier coefficients equal `-i/2` times the sum of the +2-spin and -2-spin
convolution contributions (built with the mode angle `psi = atan2(lx, -ly)`,
the -2 branch carrying an overall sign flip relative to the +2 branch),
multiplied by `sqrt(nx·ny)/sqrt(dx·dy)`. -/
theorem claim_C1 (e p : maps.cfft) (h : maps.compatible e p) :
    calc_lensed_b_first_order (inputrep.cfft e) (inputrep.cfft p) =
      some ⟨e.nx, e.ny, e.dx, e.dy, fun j1 j2 => spec_lensed_b_fft e p j1 j2⟩ := by
  unfold calc_lensed_b_first_order
  rw [if_pos (show maps.compatible (normE (inputrep.cfft e)) (normPhi (inputrep.cfft p)) from h)]
  refine congrArg some (maps.cfft.ext rfl rfl rfl rfl ?_)
  funext j1 j2
  show (tfac e : ℂ) * raw_b_fft e p j1 j2 = spec_lensed_b_fft e p j1 j2
  unfold tfac raw_b_fft spec_lensed_b_fft
  rw [bplus_eq_spec, bminus_eq_spec, Complex.ofReal_div]

/-- Witness for claim C1 at a concrete compatible pair of 2x2 fields. -/
theorem claim_C1_witness :
    maps.compatible ⟨2, 2, 1, 1, fun _ _ => 1⟩ ⟨2, 2, 1, 1, fun _ _ => 1⟩ ∧
    calc_lensed_b_first_order (inputrep.cfft ⟨2, 2, 1, 1, fun _ _ => 1⟩)
        (inputrep.cfft ⟨2, 2, 1, 1, fun _ _ => 1⟩) =
      some ⟨2, 2, 1, 1, fun j1 j2 =>
        spec_lensed_b_fft ⟨2, 2, 1, 1, fun _ _ => 1⟩ ⟨2, 2, 1, 1, fun _ _ => 1⟩ j1 j2⟩ :=
  ⟨⟨rfl, rfl, rfl, rfl⟩, claim_C1 _ _ ⟨rfl, rfl, rfl, rfl⟩⟩

/-- Claim C2: the three input representations of the same underlying field
(real-space map, Hermitian-Fourier transform, full-complex Fourier transform)
are interchangeable at the public interface, each first being normalized to
the canonical full-complex form — for `e` and likewise for `phi`. -/
theorem claim_C2 (me mp : maps.rmap) :
    (calc_lensed_b_first_order (inputrep.rmap me) (inputrep.rmap mp)
      = calc_lensed_b_first_order (inputrep.rfft me.get_rfft) (inputrep.rmap mp)) ∧
    (calc_lensed_b_first_order (inputrep.rmap me) (inputrep.rmap mp)
      = calc_lensed_b_first_order (inputrep.cfft me.get_rfft.get_cfft) (inputrep.rmap mp)) ∧
    (calc_lensed_b_first_order (inputrep.rmap me) (inputrep.rmap mp)
      = calc_lensed_b_first_order (inputrep.rmap me) (inputrep.rfft mp.get_rfft)) ∧
    (calc_lensed_b_first_order (inputrep.rmap me) (inputrep.rmap mp)
      = calc_lensed_b_first_order (inputrep.rmap me) (inputrep.cfft mp.get_rfft.get_cfft)) :=
  ⟨rfl, rfl, rfl, rfl⟩

/-- Claim C3: `calc_lensed_b_first_order` fails with the fatal assertion if
and only if, after normalization to full-complex form, `e` and the potential
field are not grid-compatible; under compatibility the routine succeeds. -/
theorem claim_C3 (e phi : inputrep) :
    calc_lensed_b_first_order e phi = none ↔
      ¬ maps.compatible (normE e) (normPhi phi) := by
  unfold calc_lensed_b_first_order
  by_cases h : maps.compatible (normE e) (normPhi phi)
  · rw [if_pos h]
    simp [h]
  · rw [if_neg h]
    simp [h]

/-- Claim C4: for every fixed `e`, `calc_lensed_b_first_order` is homogeneous
in the potential — scaling every Fourier coefficient of `phi` by a real
scalar `c` scales every Fourier coefficient of the returned field by `c`. -/
theorem claim_C4 (e p : maps.cfft) (c : ℝ) :
    calc_lensed_b_first_order (inputrep.cfft e) (inputrep.cfft (p.scaleF c)) =
      Option.map (fun r => r.scaleF c)
        (calc_lensed_b_first_order (inputrep.cfft e) (inputrep.cfft p)) := by
  unfold calc_lensed_b_first_order
  by_cases h : maps.compatible (normE (inputrep.cfft e)) (normPhi (inputrep.cfft p))
  · rw [if_pos h,
      if_pos (show maps.compatible (normE (inputrep.cfft e))
        (normPhi (inputrep.cfft (p.scaleF c))) from h)]
    show some (run_body e (p.scaleF c)).ret_obj = some ((run_body e p).ret_obj.scaleF c)
    refine congrArg some (maps.cfft.ext rfl rfl rfl rfl ?_)
    funext j1 j2
    show (tfac e : ℂ) * raw_b_fft e (p.scaleF c) j1 j2
        = (c : ℂ) * ((tfac e : ℂ) * raw_b_fft e p j1 j2)
    rw [raw_b_fft_scale]
    ring
  · rw [if_neg h,
      if_neg (show ¬ maps.compatible (normE (inputrep.cfft e))
        (normPhi (inputrep.cfft (p.scaleF c))) from h)]
    rfl

/-- Claim C5: for every `e` and every grid-compatible potential whose Fourier
coefficients are all zero, `calc_lensed_b_first_order` returns a field whose
Fourier coefficients are all zero. -/
theorem claim_C5 (e p : maps.cfft) (hcomp : maps.compatible e p)
    (hzero : ∀ a b, p.fft a b = 0) :
    ∃ r, calc_lensed_b_first_order (inputrep.cfft e) (inputrep.cfft p) = some r ∧
      ∀ j1 j2, r.fft j1 j2 = 0 := by
  refine ⟨(run_body e p).ret_obj, ?_, ?_⟩
  · unfold calc_lensed_b_first_order
    rw [if_pos (show maps.compatible (normE (inputrep.cfft e))
      (normPhi (inputrep.cfft p)) from hcomp)]
    rfl
  · intro j1 j2
    show (tfac e : ℂ) * raw_b_fft e p j1 j2 = 0
    rw [raw_b_fft_zeroP e p hzero, mul_zero]

/-- Witness for claim C5 at a concrete pair: unit E field, zero potential. -/
theorem claim_C5_witness :
    maps.compatible ⟨2, 2, 1, 1, fun _ _ => 1⟩ ⟨2, 2, 1, 1, fun _ _ => 0⟩ ∧
    (∀ a b : ℕ, ((⟨2, 2, 1, 1, fun _ _ => 0⟩ : maps.cfft)).fft a b = 0) ∧
    ∃ r, calc_lensed_b_first_order (inputrep.cfft ⟨2, 2, 1, 1, fun _ _ => 1⟩)
        (inputrep.cfft ⟨2, 2, 1, 1, fun _ _ => 0⟩) = some r ∧
        ∀ j1 j2, r.fft j1 j2 = 0 :=
  ⟨⟨rfl, rfl, rfl, rfl⟩, fun _ _ => rfl,
    claim_C5 _ _ ⟨rfl, rfl, rfl, rfl⟩ (fun _ _ => rfl)⟩

/-- Claim C6: for every potential and every grid-compatible E-mode field
whose Fourier coefficients are all zero, `calc_lensed_b_first_order` returns
a field whose Fourier coefficients are all zero, regardless of the
potential. -/
theorem claim_C6 (e p : maps.cfft) (hcomp : maps.compatible e p)
    (hzero : ∀ a b, e.fft a b = 0) :
    ∃ r, calc_lensed_b_first_order (inputrep.cfft e) (inputrep.cfft p) = some r ∧
      ∀ j1 j2, r.fft j1 j2 = 0 := by
  refine ⟨(run_body e p).ret_obj, ?_, ?_⟩
  · unfold calc_lensed_b_first_order
    rw [if_pos (show maps.compatible (normE (inputrep.cfft e))
      (normPhi (inputrep.cfft p)) from hcomp)]
    rfl
  · intro j1 j2
    show (tfac e : ℂ) * raw_b_fft e p j1 j2 = 0
    rw [raw_b_fft_zeroE e p hzero, mul_zero]

/-- Witness for claim C6 at a concrete pair: zero E field, unit potential. -/
theorem claim_C6_witness :
    maps.compatible ⟨2, 2, 1, 1, fun _ _ => 0⟩ ⟨2, 2, 1, 1, fun _ _ => 1⟩ ∧
    (∀ a b : ℕ, ((⟨2, 2, 1, 1, fun _ _ => 0⟩ : maps.cfft)).fft a b = 0) ∧
    ∃ r, calc_lensed_b_first_order (inputrep.cfft ⟨2, 2, 1, 1, fun _ _ => 0⟩)
        (inputrep.cfft ⟨2, 2, 1, 1, fun _ _ => 1⟩) = some r ∧
        ∀ j1 j2, r.fft j1 j2 = 0 :=
  ⟨⟨rfl, rfl, rfl, rfl⟩, fun _ _ => rfl,
    claim_C6 _ _ ⟨rfl, rfl, rfl, rfl⟩ (fun _ _ => rfl)⟩

/-- Claim C7: the gradient-potential spectrum routine builds the "EP"
estimator from the element-wise square roots of `clee` and `clpp`, calls the
response-filling routine with the estimator itself as both estimator
arguments, the fresh destination grid, a ones weight array of length
`lmax+1` for the first leg, an all-2 weight array of length `lmax+1` for the
second leg, and `npad=1`, and returns the destination binned into `lbins`
with the optional weight `w`. -/
theorem claim_C7 (lbins : List ℝ) (nx : ℕ) (dx : ℝ) (cl : clbundle)
    (w : Option (ℝ → ℝ)) :
    calc_lensed_clbb_flat_sky_first_order lbins nx dx cl w =
      qest.get_ml
        (qest.fill_resp
          (qest.lens.blen_EP (cl.clee.map Real.sqrt) (cl.clpp.map Real.sqrt))
          (qest.lens.blen_EP (cl.clee.map Real.sqrt) (cl.clpp.map Real.sqrt))
          (maps.cfft_new nx dx none none)
          (List.replicate (cl.lmax + 1) 1)
          (List.replicate (cl.lmax + 1) 2)
          (some 1))
        lbins w := by
  simp [calc_lensed_clbb_flat_sky_first_order, np_ones, List.map_replicate]

/-- Claim C8: the curl variant performs the same steps as the gradient
routine on identical arguments, differing only in using the "EX" estimator
kernel and in passing no padding parameter: every other component of the call
(weighting-function arrays, destination grid, leg weight arrays, bins,
optional weight) is identical. -/
theorem claim_C8 (lbins : List ℝ) (nx : ℕ) (dx : ℝ) (cl : clbundle)
    (w : Option (ℝ → ℝ)) :
    calc_lensed_clbb_flat_sky_first_order_curl lbins nx dx cl w =
      qest.get_ml
        (qest.fill_resp
          (qest.qest_blm_EX (cl.clee.map Real.sqrt) (cl.clpp.map Real.sqrt))
          (qest.qest_blm_EX (cl.clee.map Real.sqrt) (cl.clpp.map Real.sqrt))
          (maps.cfft_new nx dx none none)
          (List.replicate (cl.lmax + 1) 1)
          (List.replicate (cl.lmax + 1) 2)
          none)
        lbins w ∧
    (calc_lensed_clbb_flat_sky_first_order_curl lbins nx dx cl w).resp.estSelf.kind = "EX" ∧
    (calc_lensed_clbb_flat_sky_first_order lbins nx dx cl w).resp.estSelf.kind = "EP" ∧
    (calc_lensed_clbb_flat_sky_first_order_curl lbins nx dx cl w).resp.estSelf.w1
      = (calc_lensed_clbb_flat_sky_first_order lbins nx dx cl w).resp.estSelf.w1 ∧
    (calc_lensed_clbb_flat_sky_first_order_curl lbins nx dx cl w).resp.estSelf.w2
      = (calc_lensed_clbb_flat_sky_first_order lbins nx dx cl w).resp.estSelf.w2 ∧
    (calc_lensed_clbb_flat_sky_first_order_curl lbins nx dx cl w).resp.dest
      = (calc_lensed_clbb_flat_sky_first_order lbins nx dx cl w).resp.dest ∧
    (calc_lensed_clbb_flat_sky_first_order_curl lbins nx dx cl w).resp.wA
      = (calc_lensed_clbb_flat_sky_first_order lbins nx dx cl w).resp.wA ∧
    (calc_lensed_clbb_flat_sky_first_order_curl lbins nx dx cl w).resp.wB
      = (calc_lensed_clbb_flat_sky_first_order lbins nx dx cl w).resp.wB ∧
    (calc_lensed_clbb_flat_sky_first_order_curl lbins nx dx cl w).resp.npad = none ∧
    (calc_lensed_clbb_flat_sky_first_order_curl lbins nx dx cl w).lbins
      = (calc_lensed_clbb_flat_sky_first_order lbins nx dx cl w).lbins ∧
    (calc_lensed_clbb_flat_sky_first_order_curl lbins nx dx cl w).w
      = (calc_lensed_clbb_flat_sky_first_order lbins nx dx cl w).w := by
  refine ⟨?_, rfl, rfl, rfl, rfl, rfl, rfl, rfl, rfl, rfl, rfl⟩
  simp [calc_lensed_clbb_flat_sky_first_order_curl, np_ones, List.map_replicate]

/-- Claim C9: the body of `calc_lensed_b_first_order` never mutates the
inputs `e` and `phi`; its mutation trace consists of exactly one assignment
of the output Fourier array followed by the in-place normalization rescale,
both targeting only the freshly allocated output field. -/
theorem claim_C9 (e p : maps.cfft) :
    (run_body e p).e_obj = e ∧ (run_body e p).phi_obj = p ∧
    (run_body e p).log =
      [mutEvent.assignFFT entity.ent_ret, mutEvent.scaleInPlace entity.ent_ret] ∧
    List.countP (fun ev => mutEvent.isAssign ev) (run_body e p).log = 1 :=
  ⟨rfl, rfl, rfl, rfl⟩

/-- Claim C10: an input `e` that is neither a real-space map nor a
Hermitian-Fourier object is used directly as the full-complex E field, with
no conversion and no error at the dispatch step — the raw fall-through
applies to `e` exactly as it does to `phi`. -/
theorem claim_C10 (c : maps.cfft) (x : inputrep) :
    normE (inputrep.raw c) = c ∧ normPhi (inputrep.raw c) = c ∧
    calc_lensed_b_first_order (inputrep.raw c) x
      = calc_lensed_b_first_order (inputrep.cfft c) x :=
  ⟨rfl, rfl, rfl⟩
